import Mathlib

/-!
Verification development for the Smart-Video-Learning repository.

The Python sources under `backend/` are shallowly embedded below:
pure string manipulation is reimplemented over `List Char` / `String`,
floating point numbers are modelled as rationals, the filesystem is an
association list from paths to stored records, and external
collaborators (the chat-completion client, the embedding service and
the `sklearn` cosine-similarity routine) are passed as function
arguments, with `Except` capturing calls that may raise.
-/

/-! ## Python string primitives -/

/-- Python `str.strip()` on the character list of a string: drop
whitespace from the front, then from the back. -/
def pyStripList (l : List Char) : List Char :=
  ((l.dropWhile Char.isWhitespace).reverse.dropWhile Char.isWhitespace).reverse

/-- Python `str.strip()`. -/
def pyStrip (s : String) : String :=
  String.mk (pyStripList s.data)

/-- Split a character list at every character satisfying `p`, keeping
empty pieces, as Python `str.split(sep)` does for a one-character
separator.  Structural recursion so that proofs and `decide` can
evaluate it. -/
def splitOnPred (p : Char → Bool) : List Char → List (List Char)
  | [] => [[]]
  | a :: rest =>
    match splitOnPred p rest with
    | [] => [[]]
    | w :: ws => if p a then [] :: w :: ws else (a :: w) :: ws

/-- Python `str.split(',')` on the underlying character list. -/
def pySplitComma (l : List Char) : List (List Char) :=
  splitOnPred (fun c => c == ',') l

/-- Python `str.split('\n')` on the underlying character list. -/
def pySplitNewline (l : List Char) : List (List Char) :=
  splitOnPred (fun c => c == '\n') l

/-- Python `str.split()` with no separator: split on whitespace runs,
discarding empty pieces. -/
def pyWords (l : List Char) : List (List Char) :=
  (splitOnPred Char.isWhitespace l).filter (fun w => !w.isEmpty)

/-- Python `str.isdigit()` for the ASCII fragment: non-empty and all
decimal digits. -/
def pyIsDigit (l : List Char) : Bool :=
  !l.isEmpty && l.all Char.isDigit

/-- Value of a decimal digit string, as computed by Python `int` on a
string that passed `isdigit`. -/
def digitsToNat (l : List Char) : ℕ :=
  l.foldl (fun n c => 10 * n + (c.toNat - 48)) 0

/-- Python `int()` applied to a float: truncation toward zero, written
out on the numerator and (positive) denominator so that the kernel can
evaluate it. -/
def pyTrunc (q : ℚ) : ℤ :=
  if 0 ≤ q.num then ((q.num.toNat / q.den : ℕ) : ℤ) else -((((-q.num).toNat / q.den : ℕ)) : ℤ)

/-- Truncation toward zero, clamped to ℕ (all uses in the embedded code
apply it to non-negative quantities). -/
def pyTruncNat (q : ℚ) : ℕ :=
  (pyTrunc q).toNat

/-- Python `range(0, n, 30)` (the fallback scene splitter's loop): the
multiples of 30 that are smaller than `n`. -/
def pyRange30 (n : ℤ) : List ℤ :=
  (List.range ((n.toNat + 29) / 30)).map (fun k => ((30 * k : ℕ) : ℤ))

/-! ## Data model (backend/models, embedded)

Floating point fields are modelled as rationals; optional fields as
`Option`; `Dict[str, Any]` visual features as an association list. -/

/-- Scene model from `backend/models/video.py`.  The pydantic model
declares per-field types only: it has no validator relating
`start_time` and `end_time`, so every type-correct field assignment is
accepted. -/
structure Scene where
  id : String
  start_time : ℚ
  end_time : ℚ
  description : String
  visual_features : Option (List (String × String)) := none
  audio_transcript : Option String := none
  labels : List String := []
  confidence_score : ℚ := 0
deriving DecidableEq

/-- Pydantic validation for the `Scene` model: field type checks only
(captured by the Lean types of the fields); no cross-field constraint
is declared, so every `Scene` value is accepted. -/
def scene_model_accepts (_s : Scene) : Bool :=
  true

/-- Scene dictionary produced by `VideoProcessor._detect_scenes`
(fields `id`, `start_time`, `end_time`; the optional thumbnail URL of
the primary path is irrelevant to the claims and omitted). -/
structure RawScene where
  id : String
  start_time : ℚ
  end_time : ℚ
deriving DecidableEq

/-- Search result model from `backend/models/query.py`: exactly the
declared fields.  `_generate_explanations` in
`backend/services/semantic_search.py` also passes a `scene=Scene(...)`
keyword at construction, but the model declares no such field and
pydantic's default extra-field handling silently drops it, so a
constructed `SearchResult` carries only the fields below. -/
structure SearchResult where
  scene_id : String
  video_id : String
  video_title : String
  relevance_score : ℚ
  explanation : Option String := none
  start_time : ℚ
  end_time : ℚ
deriving DecidableEq

/-- Attribute access `result.scene` on a `SearchResult` value: the
pydantic model has no `scene` field (the extra keyword passed at
construction was dropped), so the access raises `AttributeError` (the
Lean string omits the quotes of the Python message). -/
def searchResult_scene (_r : SearchResult) : Except String Scene :=
  .error "AttributeError: SearchResult object has no attribute scene"

/-- Search query model from `backend/models/query.py`. -/
structure SearchQuery where
  query : String
  video_id : Option String := none
  subject_filter : Option String := none
  difficulty_filter : Option String := none
  max_results : ℕ := 5
  min_confidence : ℚ := 1/2
deriving DecidableEq

/-- Search response model from `backend/models/query.py`. -/
structure SearchResponse where
  query : String
  results : List SearchResult
  total_results : ℕ
  processing_time : ℚ
  suggestions : List String := []
deriving DecidableEq

/-! ## Embedding generation (`backend/utils/embeddings.py`) -/

/-- EmbeddingGenerator.generate_embedding.  The external embedding
service (OpenAI or the local sentence transformer) is the parameter
`svc`; `.error` models a raised exception, in which case the code falls
back to a random 384-vector, modelled by the parameter `fallback`.
The returned Boolean records whether the external service was invoked.
For blank text the code returns `[0.0] * 384` before any service
call. -/
def generate_embedding (svc : String → Except String (List ℚ))
    (fallback : List ℚ) (text : String) : List ℚ × Bool :=
  if pyStrip text = "" then (List.replicate 384 0, false)
  else
    match svc text with
    | .ok v => (v, true)
    | .error _ => (fallback, true)

/-! ## Video processing (`backend/services/video_processor.py`) -/

/-- Fallback branch of `VideoProcessor._detect_scenes`: when the
external scene detection raises, scenes are created every 30 seconds:
`for i in range(0, int(duration), 30)` with
`end_time = min(i + 30, duration)`. -/
def detect_scenes_fallback (duration : ℚ) : List RawScene :=
  (pyRange30 (pyTrunc duration)).map (fun (i : ℤ) =>
    { id := "scene_" ++ toString (i / 30)
      start_time := (i : ℚ)
      end_time := min ((i : ℚ) + 30) duration })

/-- VideoProcessor._extract_transcript_segment: word-slice the
transcript assuming two words per second. -/
def extract_transcript_segment (transcript : String) (start_time end_time : ℚ) : String :=
  let words := pyWords transcript.data
  let start_word := pyTruncNat (start_time * 2)
  let end_word := pyTruncNat (end_time * 2)
  String.mk (List.intercalate [' '] ((words.drop start_word).take (end_word - start_word)))

/-- Single-scene body of `VideoProcessor._enhance_scenes`: build a
`Scene` from a raw scene, the transcript segment, and the
LLM-generated description and labels (`gen_meta`, the
`_generate_scene_metadata` collaborator, keyed by the segment). -/
def enhance_scene (gen_meta : String → String × List String)
    (transcript : String) (raw : RawScene) : Scene :=
  let seg := extract_transcript_segment transcript raw.start_time raw.end_time
  { id := raw.id
    start_time := raw.start_time
    end_time := raw.end_time
    description := (gen_meta seg).1
    audio_transcript := some seg
    labels := (gen_meta seg).2
    confidence_score := 4/5 }

/-- Pickled dictionary written by `VideoProcessor._store_embedding`:
exactly the keys `scene_id`, `embedding` and `content`. -/
structure EmbeddingData where
  scene_id : String
  embedding : List ℚ
  content : String
deriving DecidableEq

/-- Filesystem model for the embeddings directory: an association list
from file paths to pickled records. -/
abbrev FileStore := List (String × EmbeddingData)

/-- Write (or overwrite) the file at `path`. -/
def writeFile (store : FileStore) (path : String) (d : EmbeddingData) : FileStore :=
  (path, d) :: store.filter (fun e => decide (e.1 ≠ path))

/-- VideoProcessor._store_embedding: pickle
`{scene_id, embedding, content}` to `EMBEDDINGS_DIR/video_id/scene_id.pkl`
(paths here are relative to the embeddings directory). -/
def store_embedding (store : FileStore) (video_id scene_id : String)
    (embedding : List ℚ) (content : String) : FileStore :=
  writeFile store (video_id ++ "/" ++ scene_id ++ ".pkl")
    { scene_id := scene_id, embedding := embedding, content := content }

/-- Text embedded for a scene in `VideoProcessor._generate_embeddings`:
`f"{scene.description} {scene.audio_transcript or ''}"`. -/
def scene_content (s : Scene) : String :=
  s.description ++ " " ++ s.audio_transcript.getD ""

/-- VideoProcessor._generate_embeddings: for each scene, embed its
combined text (via the `embed` collaborator) and store one pickle
file. -/
def generate_embeddings (embed : String → List ℚ) (scenes : List Scene)
    (video_id : String) (store : FileStore) : FileStore :=
  scenes.foldl (fun st scene =>
    store_embedding st video_id scene.id (embed (scene_content scene)) (scene_content scene)) store

/-! ## Semantic search (`backend/services/semantic_search.py`) -/

/-- Stored scene record as loaded from a pickle file during candidate
retrieval (the on-disk `EmbeddingData` together with the video id
recovered from the directory name). -/
structure StoredScene where
  video_id : String
  scene_id : String
  content : String
  embedding : List ℚ
deriving DecidableEq

/-- Candidate dictionary built by
`SemanticSearchService._find_candidate_scenes`. -/
structure Candidate where
  video_id : String
  scene_id : String
  content : String
  similarity : ℚ
deriving DecidableEq

/-- Candidate built from a stored scene: the similarity field is
`cosine_similarity([query_embedding], [embedding])[0][0]`, where the
`sklearn` routine is the external collaborator `sim`. -/
def mkCandidate (sim : List ℚ → List ℚ → ℚ) (query_embedding : List ℚ)
    (s : StoredScene) : Candidate :=
  { video_id := s.video_id
    scene_id := s.scene_id
    content := s.content
    similarity := sim query_embedding s.embedding }

/-- Descending comparison on candidate similarity, the sort key of
`candidates.sort(key=lambda x: x["similarity"], reverse=True)`. -/
def simGE (a b : Candidate) : Prop :=
  b.similarity ≤ a.similarity

instance : DecidableRel simGE := fun a b =>
  inferInstanceAs (Decidable (b.similarity ≤ a.similarity))

instance : IsTotal Candidate simGE :=
  ⟨fun a b => le_total b.similarity a.similarity⟩

instance : IsTrans Candidate simGE :=
  ⟨fun _ _ _ h h2 => le_trans h2 h⟩

/-- SemanticSearchService._find_candidate_scenes: compute the
similarity of every stored scene against the query embedding, keep
those with `similarity >= min_similarity`, sort by similarity in
descending order (Python list.sort is a stable sort; `reverse=True`
keeps candidates of equal similarity in collection order, which the
stable `insertionSort` reproduces), and return the first
`max_results`. -/
def find_candidate_scenes (sim : List ℚ → List ℚ → ℚ) (min_similarity : ℚ)
    (stored : List StoredScene) (query_embedding : List ℚ)
    (max_results : ℕ) : List Candidate :=
  (((stored.map (mkCandidate sim query_embedding)).filter
      (fun c => decide (min_similarity ≤ c.similarity))).insertionSort simGE).take max_results

/-- Similarity function used for concrete instances of the
similarity-library parameter: it reads off the score stored in the
first component of the scene vector. -/
def headSimilarity (_query v : List ℚ) : ℚ :=
  v.headD 0

/-- Ranking parser of `SemanticSearchService._rerank_with_llm`:
`[int(x.strip()) - 1 for x in ranking_response.strip().split(',') if x.strip().isdigit()]`. -/
def parseRankings (ranking_response : String) : List ℤ :=
  (pySplitComma (pyStripList ranking_response.data)).filterMap (fun x =>
    let t := pyStripList x
    if pyIsDigit t then some ((digitsToNat t : ℤ) - 1) else none)

/-- Reordering loop of `_rerank_with_llm`: for each parsed rank append
`candidates[rank]` when `0 <= rank < len(candidates)` (the element
lookup `candidates[rank.toNat]?` is `none` exactly when the upper
bound fails). -/
def rerankPick (candidates : List Candidate) (rankings : List ℤ) : List Candidate :=
  rankings.filterMap (fun rank =>
    if 0 ≤ rank then candidates[rank.toNat]? else none)

/-- Remainder loop of `_rerank_with_llm`: append every candidate whose
position is not in `set(rankings)`, in enumeration order. -/
def rerankRemaining (candidates : List Candidate) (rankings : List ℤ) : List Candidate :=
  candidates.enum.filterMap (fun p =>
    if (p.1 : ℤ) ∈ rankings then none else some p.2)

/-- SemanticSearchService._rerank_with_llm, after the prompt has been
sent: `llm_response` is the outcome of
`self.llm_service.generate_response(prompt)` (`.error` models a raised
exception, caught by the surrounding `try` which falls back to the
original candidate order).  An empty candidate list short-circuits to
`[]`. -/
def rerank_with_llm (candidates : List Candidate)
    (llm_response : Except String String) : List Candidate :=
  if candidates.isEmpty then []
  else
    match llm_response with
    | .ok resp =>
        rerankPick candidates (parseRankings resp) ++
          rerankRemaining candidates (parseRankings resp)
    | .error _ => candidates

/-- In-range test for a parsed (0-based) rank against a candidate-list
length, as in `if 0 <= rank < len(candidates)`. -/
def rankInRange (n : ℕ) (rank : ℤ) : Bool :=
  decide (0 ≤ rank) && decide (rank < (n : ℤ))

/-- Prompt of `SemanticSearchService._generate_suggestions`, built from
the query and the description of the top result only. -/
def suggestion_prompt (query : String) (top_result_content : String) : String :=
  "\n        A student searched for: \"" ++ query ++
    "\"\n        \n        Based on this educational content: \"" ++ top_result_content ++
    "\"\n        \n        Suggest 3 related follow-up questions they might want to ask to deepen their understanding. \n        Make them specific and educational.\n        \n        Return as a simple list, one question per line.\n        "

/-- SemanticSearchService._generate_suggestions: with no results return
no suggestions and make no language-model call.  Otherwise line 235
evaluates `results[0].scene.description` OUTSIDE the function's `try`
block; since the pydantic `SearchResult` has no `scene` attribute this
raises `AttributeError` and propagates, before the prompt is built and
before any chat-completion call.  The unreachable remainder mirrors
the source: one call (`llm`) on the prompt built from the query and
the top result's scene description, the response split into non-blank
stripped lines, at most three kept, and the `except` branch returning
no suggestions.  `.ok` carries the suggestions together with the
number of language-model calls made. -/
def generate_suggestions (llm : String → Except String String)
    (query : String) : List SearchResult → Except String (List String × ℕ)
  | [] => .ok ([], 0)
  | r :: _ =>
    match searchResult_scene r with
    | .error e => .error e
    | .ok scene =>
      match llm (suggestion_prompt query scene.description) with
      | .ok resp =>
          .ok (((pySplitNewline resp.data).filterMap (fun s =>
              let t := pyStripList s
              if t.isEmpty then none else some (String.mk t))).take 3, 1)
      | .error _ => .ok ([], 1)

/-! ## Search route (`backend/api/search.py`) -/

/-- Exception raised inside the POST search handler's `try` block:
either a `fastapi.HTTPException` (a subclass of `Exception`) or any
other exception, carrying its message. -/
inductive PyExc where
  | httpExc (status : ℕ) (detail : String)
  | exc (msg : String)
deriving DecidableEq

/-- Python `str(e)` for the exceptions above; Starlette's
`HTTPException.__str__` renders `f"{status_code}: {detail}"`. -/
def pyExcStr : PyExc → String
  | .httpExc status detail => toString status ++ ": " ++ detail
  | .exc msg => msg

/-- HTTP error response produced by raising an `HTTPException` that
escapes the handler. -/
structure HTTPErrorResponse where
  status_code : ℕ
  detail : String
deriving DecidableEq

/-- POST `/api/search/` handler `search_videos`: inside `try`, an empty
stripped query raises `HTTPException(400, "Query cannot be empty")`;
otherwise the search service runs (its outcome is the parameter
`search_outcome`, `.error` modelling a raised exception).  The
handler's own `except Exception` catches every exception — including
the 400 `HTTPException` it just raised — and re-raises
`HTTPException(500, f"Search failed: {str(e)}")`. -/
def search_videos (search_outcome : Except String SearchResponse)
    (query : SearchQuery) : Except HTTPErrorResponse SearchResponse :=
  let body : Except PyExc SearchResponse :=
    if pyStrip query.query = "" then
      .error (.httpExc 400 "Query cannot be empty")
    else
      match search_outcome with
      | .ok r => .ok r
      | .error msg => .error (.exc msg)
  match body with
  | .ok r => .ok r
  | .error e => .error { status_code := 500, detail := "Search failed: " ++ pyExcStr e }

/-! ## Supporting lemmas -/

/-- Stripping an all-whitespace string yields the empty string. -/
theorem pyStrip_eq_empty (s : String) (h : ∀ c ∈ s.data, c.isWhitespace) :
    pyStrip s = "" := by
  have h1 : s.data.dropWhile Char.isWhitespace = [] :=
    List.dropWhile_eq_nil_iff.mpr h
  have : pyStripList s.data = [] := by
    simp [pyStripList, h1]
  simp [pyStrip, this]

/-- Appending nothing of substance: `rerankRemaining` with an empty
ranking returns the candidates unchanged. -/
theorem rerankRemaining_nil (cs : List Candidate) :
    rerankRemaining cs ([] : List ℤ) = cs := by
  unfold rerankRemaining
  have : (fun p : ℕ × Candidate =>
      if ((p.1 : ℤ) ∈ ([] : List ℤ)) then none else some p.2) =
      (some ∘ fun p : ℕ × Candidate => p.2) := by
    funext p
    simp
  rw [this, List.filterMap_eq_map]
  exact List.enum_map_snd cs

/-! ## C10 -/

/-- C10: for every input string consisting only of whitespace
(including the empty string), `generate_embedding` returns a vector of
exactly 384 entries all equal to 0.0, and does not invoke the external
embedding service or local model. -/
theorem generate_embedding_blank (svc : String → Except String (List ℚ))
    (fallback : List ℚ) (text : String)
    (h : ∀ c ∈ text.data, c.isWhitespace) :
    generate_embedding svc fallback text = (List.replicate 384 0, false) ∧
    (generate_embedding svc fallback text).1.length = 384 ∧
    (∀ x ∈ (generate_embedding svc fallback text).1, x = 0) ∧
    (generate_embedding svc fallback text).2 = false := by
  have heq : generate_embedding svc fallback text = (List.replicate 384 0, false) := by
    unfold generate_embedding
    rw [if_pos (pyStrip_eq_empty text h)]
  refine ⟨heq, ?_, ?_, ?_⟩
  · rw [heq]
    show (List.replicate 384 (0 : ℚ)).length = 384
    rw [List.length_replicate]
  · rw [heq]
    intro x hx
    exact List.eq_of_mem_replicate hx
  · rw [heq]

/-- Witness for C10 on the concrete two-space string. -/
theorem generate_embedding_blank_witness :
    generate_embedding (fun _ => .ok [5]) [7] "  " = (List.replicate 384 0, false) :=
  (generate_embedding_blank (fun _ => .ok [5]) [7] "  " (by decide)).1

/-! ## C9 -/

/-- C9: for every search request whose query string is empty or
whitespace-only, the POST search endpoint answers with status 500 and
the 400 message wrapped in `Search failed: ...`: the 400
`HTTPException` raised inside the handler's `try` block is caught by
the handler's own broad `except Exception` and re-raised as a 500,
whatever the search service would have returned. -/
theorem search_videos_blank_query (search_outcome : Except String SearchResponse)
    (q : SearchQuery) (h : ∀ c ∈ q.query.data, c.isWhitespace) :
    search_videos search_outcome q =
      .error { status_code := 500, detail := "Search failed: 400: Query cannot be empty" } := by
  have hq : pyStrip q.query = "" := pyStrip_eq_empty q.query h
  simp only [search_videos, hq, if_pos]
  rfl

/-- Witness for C9: the concrete empty query. -/
theorem search_videos_blank_query_witness :
    search_videos (.error "service unavailable") { query := "" } =
      .error { status_code := 500, detail := "Search failed: 400: Query cannot be empty" } :=
  search_videos_blank_query (.error "service unavailable") { query := "" } (by decide)

/-! ## C8 -/

/-- C8 (code bug): on every search with at least one result,
`_generate_suggestions` raises `AttributeError` at the
`results[0].scene` access — the pydantic `SearchResult` has no `scene`
field — before the suggestion prompt is built and before any
language-model call is issued, for every chat client, query and tail
of results (in particular at the concrete failing input of the
claim).  The single suggestion call the spec describes never
happens. -/
theorem generate_suggestions_raises_before_call (llm : String → Except String String)
    (query : String) (r : SearchResult) (rest : List SearchResult) :
    generate_suggestions llm query (r :: rest) =
      .error "AttributeError: SearchResult object has no attribute scene" :=
  rfl

/-! ## C4 -/

/-- C4: if the language-model call raises, or its response contains no
usable numeric token, `_rerank_with_llm` returns the candidates in
exactly the original similarity order. -/
theorem rerank_with_llm_fallback (cs : List Candidate) (resp e : String)
    (hparse : parseRankings resp = []) :
    rerank_with_llm cs (.ok resp) = cs ∧ rerank_with_llm cs (.error e) = cs := by
  constructor
  · cases cs with
    | nil => rfl
    | cons a l =>
      show rerankPick (a :: l) (parseRankings resp) ++
          rerankRemaining (a :: l) (parseRankings resp) = a :: l
      rw [hparse, rerankRemaining_nil]
      rfl
  · cases cs with
    | nil => rfl
    | cons a l => rfl

/-- Witness for C4: the fallback text returned by the chat client has
no numeric tokens, and an exception path on the same candidates. -/
theorem rerank_with_llm_fallback_witness :
    rerank_with_llm [⟨"v", "a", "x", 1⟩, ⟨"v", "b", "y", 2⟩]
        (.ok "Unable to generate response at this time.") =
      [⟨"v", "a", "x", 1⟩, ⟨"v", "b", "y", 2⟩] ∧
    rerank_with_llm [⟨"v", "a", "x", 1⟩, ⟨"v", "b", "y", 2⟩] (.error "APIError") =
      [⟨"v", "a", "x", 1⟩, ⟨"v", "b", "y", 2⟩] :=
  rerank_with_llm_fallback [⟨"v", "a", "x", 1⟩, ⟨"v", "b", "y", 2⟩]
    "Unable to generate response at this time." "APIError" (by decide)

/-! ## C6 -/

/-- Truncation toward zero of a non-negative rational stays below the
rational. -/
theorem pyTrunc_cast_le (q : ℚ) (h : 0 ≤ q) : ((pyTrunc q : ℤ) : ℚ) ≤ q := by
  have hn : 0 ≤ q.num := Rat.num_nonneg.mpr h
  have hb : (0 : ℚ) < (q.den : ℚ) := by exact_mod_cast q.den_pos
  have hq : ((q.num.toNat : ℚ)) / ((q.den : ℚ)) = q := by
    rw [show ((q.num.toNat : ℚ)) = ((q.num : ℤ) : ℚ) by
      exact_mod_cast congrArg Int.cast (Int.toNat_of_nonneg hn)]
    exact Rat.num_div_den q
  have key : ((q.num.toNat / q.den : ℕ) : ℚ) ≤ ((q.num.toNat : ℚ)) / ((q.den : ℚ)) := by
    rw [le_div_iff₀ hb]
    exact_mod_cast Nat.div_mul_le_self q.num.toNat q.den
  calc ((pyTrunc q : ℤ) : ℚ) = ((q.num.toNat / q.den : ℕ) : ℚ) := by
        rw [pyTrunc, if_pos hn, Int.cast_natCast]
    _ ≤ ((q.num.toNat : ℚ)) / ((q.den : ℚ)) := key
    _ = q := hq

/-- A non-negative integer strictly below the truncation of `q` is
strictly below `q`. -/
theorem lt_of_lt_pyTrunc {m : ℤ} {q : ℚ} (hm : 0 ≤ m) (h : m < pyTrunc q) :
    (m : ℚ) < q := by
  by_cases hn : 0 ≤ q.num
  · have hq : 0 ≤ q := Rat.num_nonneg.mp hn
    have h1 : ((pyTrunc q : ℤ) : ℚ) ≤ q := pyTrunc_cast_le q hq
    have h2 : ((m : ℚ)) + 1 ≤ ((pyTrunc q : ℤ) : ℚ) := by
      exact_mod_cast Int.add_one_le_iff.mpr h
    linarith
  · exfalso
    have : pyTrunc q ≤ 0 := by
      rw [pyTrunc, if_neg hn]
      exact neg_nonpos.mpr (Int.ofNat_nonneg _)
    omega

/-- C6 (amended): the fallback scene splitter only produces scenes with
`end_time` strictly greater than `start_time`, and the property is
preserved by scene enhancement; the data model itself does not enforce
it (see the counterexample). -/
theorem fallback_scenes_end_gt_start (gen_meta : String → String × List String)
    (transcript : String) (duration : ℚ) :
    ∀ s ∈ (detect_scenes_fallback duration).map (enhance_scene gen_meta transcript),
      s.start_time < s.end_time := by
  intro s hs
  rcases List.mem_map.mp hs with ⟨raw, hraw, rfl⟩
  show raw.start_time < raw.end_time
  unfold detect_scenes_fallback pyRange30 at hraw
  rw [List.map_map] at hraw
  rcases List.mem_map.mp hraw with ⟨k, hk, rfl⟩
  show (((30 * k : ℕ) : ℤ) : ℚ) < min ((((30 * k : ℕ) : ℤ) : ℚ) + 30) duration
  have hk2 : k < ((pyTrunc duration).toNat + 29) / 30 := List.mem_range.mp hk
  have h30 : 30 * k + 30 ≤ (pyTrunc duration).toNat + 29 := by
    calc 30 * k + 30 = 30 * (k + 1) := by ring
      _ ≤ 30 * (((pyTrunc duration).toNat + 29) / 30) := Nat.mul_le_mul_left 30 hk2
      _ = (((pyTrunc duration).toNat + 29) / 30) * 30 := by ring
      _ ≤ (pyTrunc duration).toNat + 29 := Nat.div_mul_le_self _ 30
  have hlt : ((30 * k : ℕ) : ℤ) < pyTrunc duration := by
    rcases le_or_lt 0 (pyTrunc duration) with hp | hp
    · have h1 : (30 * k : ℕ) < (pyTrunc duration).toNat := by omega
      have h2 := Int.ofNat_lt.mpr h1
      rw [Int.toNat_of_nonneg hp] at h2
      exact h2
    · omega
  have hq : (((30 * k : ℕ) : ℤ) : ℚ) < duration :=
    lt_of_lt_pyTrunc (Int.ofNat_nonneg _) hlt
  refine lt_min ?_ ?_
  · linarith
  · exact_mod_cast hq

/-- Counterexample for C6: the system constructs and accepts a `Scene`
whose `end_time` is not greater than its `start_time` — scene
enhancement passes externally supplied boundaries straight into the
model, and the model performs no cross-field validation. -/
theorem scene_invariant_not_enforced :
    scene_model_accepts
        (enhance_scene (fun _ => ("Educational content", []))
          "" { id := "scene_0", start_time := 10, end_time := 5 }) = true ∧
    ¬ (enhance_scene (fun _ => ("Educational content", []))
          "" { id := "scene_0", start_time := 10, end_time := 5 }).start_time <
        (enhance_scene (fun _ => ("Educational content", []))
          "" { id := "scene_0", start_time := 10, end_time := 5 }).end_time := by
  constructor
  · rfl
  · show ¬ (10 : ℚ) < 5
    decide

/-- Witness for C6 (amended), on a concrete 45-second video. -/
theorem fallback_scenes_end_gt_start_witness :
    (enhance_scene (fun _ => ("d", [])) ""
        { id := "scene_" ++ toString ((((30 * 0 : ℕ) : ℤ)) / 30),
          start_time := ((((30 * 0 : ℕ) : ℤ)) : ℚ),
          end_time := min (((((30 * 0 : ℕ) : ℤ)) : ℚ) + 30) 45 }).start_time <
      (enhance_scene (fun _ => ("d", [])) ""
        { id := "scene_" ++ toString ((((30 * 0 : ℕ) : ℤ)) / 30),
          start_time := ((((30 * 0 : ℕ) : ℤ)) : ℚ),
          end_time := min (((((30 * 0 : ℕ) : ℤ)) : ℚ) + 30) 45 }).end_time :=
  fallback_scenes_end_gt_start (fun _ => ("d", [])) "" 45 _
    (List.mem_map_of_mem _ (List.mem_map_of_mem _ (by decide)))

/-! ## C7 -/

/-- Scene-id injectivity of the pickle paths used by
`_store_embedding` within one video directory. -/
theorem path_append_inj (vid a b : String)
    (h : vid ++ "/" ++ a ++ ".pkl" = vid ++ "/" ++ b ++ ".pkl") : a = b := by
  have h2 := congrArg String.data h
  simp only [String.data_append, List.append_assoc] at h2
  have h3 := List.append_cancel_left h2
  have h4 := List.append_cancel_left h3
  have h5 := List.append_cancel_right h4
  exact String.ext h5

/-- After writing a file, the store holds exactly one entry at that
path, carrying the written record. -/
theorem writeFile_filter_self (store : FileStore) (p : String) (d : EmbeddingData) :
    (writeFile store p d).filter (fun e => decide (e.1 = p)) = [(p, d)] := by
  unfold writeFile
  rw [List.filter_cons_of_pos (by simp), List.filter_filter]
  have h0 : store.filter
      (fun a => decide (a.1 = p) && decide (a.1 ≠ p)) = [] := by
    rw [List.filter_eq_nil_iff]
    intro a _
    by_cases hq : a.1 = p <;> simp [hq]
  rw [h0]

/-- Writing at a different path leaves the entries at `p` unchanged. -/
theorem writeFile_filter_other (store : FileStore) (p q : String) (d : EmbeddingData)
    (h : q ≠ p) :
    (writeFile store q d).filter (fun e => decide (e.1 = p)) =
      store.filter (fun e => decide (e.1 = p)) := by
  unfold writeFile
  rw [List.filter_cons_of_neg (by simp [h]), List.filter_filter]
  apply List.filter_congr
  intro a _
  by_cases hq : a.1 = p <;> simp [hq, Ne.symm h]

/-- Processing scenes whose paths all differ from `p` leaves the
entries at `p` unchanged. -/
theorem generate_embeddings_preserves (embed : String → List ℚ)
    (scenes : List Scene) (vid : String) (store : FileStore) (p : String)
    (h : ∀ s ∈ scenes, (vid ++ "/" ++ s.id ++ ".pkl") ≠ p) :
    (generate_embeddings embed scenes vid store).filter (fun e => decide (e.1 = p)) =
      store.filter (fun e => decide (e.1 = p)) := by
  induction scenes generalizing store with
  | nil => rfl
  | cons sc rest ih =>
    show (generate_embeddings embed rest vid
        (store_embedding store vid sc.id (embed (scene_content sc)) (scene_content sc))).filter
        (fun e => decide (e.1 = p)) = store.filter (fun e => decide (e.1 = p))
    rw [ih _ (fun s hs => h s (List.mem_cons_of_mem _ hs))]
    exact writeFile_filter_other store p _ _ (h sc (List.mem_cons_self _ _))

/-- C7: for every processed scene (with the pipeline's pairwise
distinct scene identifiers), exactly one pickle file named
`<scene_id>.pkl` exists under the video's embeddings directory after
processing, and its contents are exactly
`{scene_id, embedding, content}` for that scene. -/
theorem generate_embeddings_one_file_per_scene (embed : String → List ℚ)
    (scenes : List Scene) (vid : String) (store : FileStore)
    (hids : (scenes.map Scene.id).Nodup) :
    ∀ s ∈ scenes,
      ((generate_embeddings embed scenes vid store).filter
          (fun e => decide (e.1 = vid ++ "/" ++ s.id ++ ".pkl"))).map Prod.snd =
        [{ scene_id := s.id, embedding := embed (scene_content s),
           content := scene_content s }] := by
  induction scenes generalizing store with
  | nil =>
    intro s hs
    cases hs
  | cons sc rest ih =>
    rw [List.map_cons, List.nodup_cons] at hids
    intro s hs
    rcases List.mem_cons.mp hs with rfl | hmem
    · show ((generate_embeddings embed rest vid
          (store_embedding store vid s.id (embed (scene_content s)) (scene_content s))).filter
          (fun e => decide (e.1 = vid ++ "/" ++ s.id ++ ".pkl"))).map Prod.snd = _
      rw [generate_embeddings_preserves embed rest vid _ _ ?hne]
      · show ((writeFile store (vid ++ "/" ++ s.id ++ ".pkl")
            { scene_id := s.id, embedding := embed (scene_content s),
              content := scene_content s }).filter
            (fun e => decide (e.1 = vid ++ "/" ++ s.id ++ ".pkl"))).map Prod.snd = _
        rw [writeFile_filter_self]
        rfl
      case hne =>
        intro t ht heq
        exact hids.1 (path_append_inj vid t.id s.id heq ▸ List.mem_map_of_mem Scene.id ht)
    · exact ih _ hids.2 s hmem

/-- Witness for C7: two concrete scenes in an empty store. -/
theorem generate_embeddings_one_file_per_scene_witness :
    ((generate_embeddings (fun _ => [(1 : ℚ)])
        [Scene.mk "scene_0" 0 30 "intro" none none [] 0,
         Scene.mk "scene_1" 30 60 "proof" none none [] 0]
        "vid" []).filter
        (fun e => decide (e.1 = "vid" ++ "/" ++
          (Scene.mk "scene_0" 0 30 "intro" none none [] 0).id ++ ".pkl"))).map Prod.snd =
      [{ scene_id := (Scene.mk "scene_0" 0 30 "intro" none none [] 0).id,
         embedding := (fun _ => [(1 : ℚ)])
           (scene_content (Scene.mk "scene_0" 0 30 "intro" none none [] 0)),
         content := scene_content (Scene.mk "scene_0" 0 30 "intro" none none [] 0) }] :=
  generate_embeddings_one_file_per_scene (fun _ => [(1 : ℚ)])
    [Scene.mk "scene_0" 0 30 "intro" none none [] 0,
     Scene.mk "scene_1" 30 60 "proof" none none [] 0]
    "vid" [] (by decide)
    (Scene.mk "scene_0" 0 30 "intro" none none [] 0)
    (by decide)

/-! ## C2 -/

/-- C2 (amended): `_find_candidate_scenes` returns only stored scenes
whose similarity is at or above the fixed threshold (the source keeps
`similarity >= min_similarity`, so a scene exactly at the threshold is
also returned — see the counterexample to the strictly-above reading),
sorted in descending order of similarity, truncated to at most
`max_results` entries, and those entries are the top ones by score:
every stored scene at or above the threshold is either in the returned
list or scores no more than every returned candidate. -/
theorem find_candidate_scenes_spec (sim : List ℚ → List ℚ → ℚ) (θ : ℚ)
    (stored : List StoredScene) (q : List ℚ) (M : ℕ) :
    (∀ c ∈ find_candidate_scenes sim θ stored q M, θ ≤ c.similarity) ∧
    ((find_candidate_scenes sim θ stored q M).map Candidate.similarity).Sorted
      (fun a b => b ≤ a) ∧
    (find_candidate_scenes sim θ stored q M).length =
      min M ((stored.map (mkCandidate sim q)).filter
        (fun c => decide (θ ≤ c.similarity))).length ∧
    (∀ s ∈ stored, θ ≤ sim q s.embedding →
      mkCandidate sim q s ∈ find_candidate_scenes sim θ stored q M ∨
        ∀ c ∈ find_candidate_scenes sim θ stored q M,
          sim q s.embedding ≤ c.similarity) := by
  set L := (stored.map (mkCandidate sim q)).filter
    (fun c => decide (θ ≤ c.similarity)) with hL
  set S := L.insertionSort simGE with hS
  have hperm : S.Perm L := List.perm_insertionSort simGE L
  have hsorted : S.Sorted simGE := List.sorted_insertionSort simGE L
  have hfind : find_candidate_scenes sim θ stored q M = S.take M := rfl
  refine ⟨?_, ?_, ?_, ?_⟩
  · intro c hc
    rw [hfind] at hc
    have hcS : c ∈ S := List.take_subset M S hc
    have hcL : c ∈ (stored.map (mkCandidate sim q)).filter
        (fun c => decide (θ ≤ c.similarity)) := hL ▸ hperm.mem_iff.mp hcS
    exact of_decide_eq_true (List.mem_filter.mp hcL).2
  · rw [hfind]
    exact List.Pairwise.map Candidate.similarity (fun a b h => h)
      (List.Pairwise.sublist (List.take_sublist M S) hsorted)
  · rw [hfind, List.length_take, hperm.length_eq]
  · intro s hs hsim
    have hmemL : mkCandidate sim q s ∈ L := by
      rw [hL]
      exact List.mem_filter.mpr
        ⟨List.mem_map_of_mem (mkCandidate sim q) hs, decide_eq_true hsim⟩
    have hmemS : mkCandidate sim q s ∈ S := hperm.mem_iff.mpr hmemL
    rw [← List.take_append_drop M S] at hmemS
    rcases List.mem_append.mp hmemS with hin | hdrop
    · left
      rw [hfind]
      exact hin
    · right
      intro c hc
      rw [hfind] at hc
      have hp : List.Pairwise simGE (S.take M ++ S.drop M) := by
        rw [List.take_append_drop]
        exact hsorted
      exact (List.pairwise_append.mp hp).2.2 c hc _ hdrop

/-- Witness for C2 (amended): a concrete retrieval in which the single
returned candidate is at or above the threshold. -/
theorem find_candidate_scenes_spec_witness :
    (0 : ℚ) ≤ (mkCandidate headSimilarity [1] (StoredScene.mk "v" "s" "c" [1])).similarity :=
  (find_candidate_scenes_spec headSimilarity 0 [StoredScene.mk "v" "s" "c" [1]] [1] 5).1
    (mkCandidate headSimilarity [1] (StoredScene.mk "v" "s" "c" [1])) (by decide)

/-- Counterexample for C2 as stated: with threshold 1, a stored scene
of similarity exactly 1 is returned (the source compares with `>=`),
so it is false that every returned candidate is strictly above the
threshold. -/
theorem find_candidate_scenes_at_threshold_included :
    ¬ (∀ c ∈ find_candidate_scenes headSimilarity 1 [StoredScene.mk "v" "s" "c" [1]] [1] 5,
        1 < c.similarity) := by
  decide

/-! ## C5 -/

/-- C5 (amended): a stored scene whose similarity is at or above the
threshold (in particular, strictly above) is included in the candidate
list returned by `_find_candidate_scenes`, provided the number of
stored scenes meeting the threshold does not exceed the result cap;
without that proviso the final `[:max_results]` truncation can drop
it — see the counterexample. -/
theorem find_candidate_scenes_inclusion (sim : List ℚ → List ℚ → ℚ) (θ : ℚ)
    (stored : List StoredScene) (q : List ℚ) (M : ℕ) (s : StoredScene)
    (hs : s ∈ stored) (hsim : θ ≤ sim q s.embedding)
    (hcount : ((stored.map (mkCandidate sim q)).filter
        (fun c => decide (θ ≤ c.similarity))).length ≤ M) :
    mkCandidate sim q s ∈ find_candidate_scenes sim θ stored q M := by
  set L := (stored.map (mkCandidate sim q)).filter
    (fun c => decide (θ ≤ c.similarity)) with hL
  have hmemL : mkCandidate sim q s ∈ L := by
    rw [hL]
    exact List.mem_filter.mpr
      ⟨List.mem_map_of_mem (mkCandidate sim q) hs, decide_eq_true hsim⟩
  have hmemS : mkCandidate sim q s ∈ L.insertionSort simGE :=
    (List.perm_insertionSort simGE L).mem_iff.mpr hmemL
  show mkCandidate sim q s ∈ (L.insertionSort simGE).take M
  rw [List.take_of_length_le]
  · exact hmemS
  · rw [(List.perm_insertionSort simGE L).length_eq]
    exact hcount

/-- Witness for C5 (amended): concrete single-scene retrieval. -/
theorem find_candidate_scenes_inclusion_witness :
    mkCandidate headSimilarity [1] (StoredScene.mk "v" "s" "c" [1]) ∈
      find_candidate_scenes headSimilarity 0 [StoredScene.mk "v" "s" "c" [1]] [1] 5 :=
  find_candidate_scenes_inclusion headSimilarity 0 [StoredScene.mk "v" "s" "c" [1]] [1] 5
    (StoredScene.mk "v" "s" "c" [1]) (by decide) (by decide) (by decide)

/-- Counterexample for C5 as stated: two stored scenes are strictly
above the threshold, but with a result cap of 1 the second scene is
not in the returned candidate list, so above-threshold similarity does
not imply inclusion. -/
theorem find_candidate_scenes_truncation_excludes :
    0 < headSimilarity [1] (StoredScene.mk "v" "s2" "c2" [1]).embedding ∧
    mkCandidate headSimilarity [1] (StoredScene.mk "v" "s2" "c2" [1]) ∉
      find_candidate_scenes headSimilarity 0
        [StoredScene.mk "v" "s1" "c1" [1], StoredScene.mk "v" "s2" "c2" [1]] [1] 1 := by
  decide

/-! ## C1 and C3: structure of the rerank output -/

/-- The pick loop only uses the in-range parsed ranks, as natural
number indices into the candidate list. -/
theorem rerankPick_eq (cs : List Candidate) (rks : List ℤ) :
    rerankPick cs rks =
      ((rks.filter (rankInRange cs.length)).map Int.toNat).filterMap
        (fun i => cs[i]?) := by
  induction rks with
  | nil => rfl
  | cons r rest ih =>
    show List.filterMap _ (r :: rest) = _
    rw [List.filterMap_cons, List.filter_cons]
    by_cases h0 : (0 : ℤ) ≤ r
    · by_cases h1 : r < (cs.length : ℤ)
      · have hin : rankInRange cs.length r = true := by
          simp [rankInRange, h0, h1]
        rw [if_pos h0, hin, if_pos rfl, List.map_cons, List.filterMap_cons]
        cases cs[r.toNat]?
        · exact ih
        · exact congrArg _ ih
      · have hin : rankInRange cs.length r = false := by
          simp [rankInRange, h1]
        have hnone : cs[r.toNat]? = none := by
          apply List.getElem?_eq_none
          omega
        rw [if_pos h0, hnone, hin, if_neg (by simp)]
        exact ih
    · have hin : rankInRange cs.length r = false := by
        simp [rankInRange, h0]
      rw [if_neg h0, hin, if_neg (by simp)]
      exact ih

/-- Looking up every position of a list in order returns the list. -/
theorem range_filterMap_getElem (cs : List Candidate) :
    (List.range cs.length).filterMap (fun i => cs[i]?) = cs := by
  induction cs with
  | nil => rfl
  | cons a t ih =>
    show (List.range (t.length + 1)).filterMap (fun i => (a :: t)[i]?) = a :: t
    rw [List.range_succ_eq_map, List.filterMap_cons, List.filterMap_map]
    have hcomp : ((fun i => (a :: t)[i]?) ∘ Nat.succ) = (fun i => t[i]?) := by
      funext i
      exact List.getElem?_cons_succ
    rw [List.getElem?_cons_zero, hcomp, ih]

/-- A filterMap that either drops a pair or keeps its second component
is the projection of a filter. -/
theorem filterMap_drop_or_snd (l : List (ℕ × Candidate)) (rks : List ℤ) :
    l.filterMap (fun p => if ((p.1 : ℤ) ∈ rks) then none else some p.2) =
      (l.filter (fun p => decide ((p.1 : ℤ) ∉ rks))).map Prod.snd := by
  induction l with
  | nil => rfl
  | cons a t ih =>
    by_cases hq : (a.1 : ℤ) ∈ rks <;> simp [hq, ih]

/-- The remainder loop keeps a subsequence of the candidates in their
original order. -/
theorem rerankRemaining_sublist (cs : List Candidate) (rks : List ℤ) :
    (rerankRemaining cs rks).Sublist cs := by
  unfold rerankRemaining
  rw [filterMap_drop_or_snd]
  have h2 := (List.filter_sublist (p := fun p : ℕ × Candidate => decide ((p.1 : ℤ) ∉ rks)) cs.enum).map Prod.snd
  rw [List.enum_map_snd] at h2
  exact h2

/-- Enumeration-based remainder loop, re-expressed as a filter of the
position range (generalised over the enumeration offset). -/
theorem enumFrom_drop_mem_eq (cs : List Candidate) (rks : List ℤ) :
    ∀ k : ℕ,
      (List.enumFrom k cs).filterMap
          (fun p => if ((p.1 : ℤ) ∈ rks) then none else some p.2) =
        ((List.range cs.length).filter
            (fun i => decide ((((k + i : ℕ) : ℤ)) ∉ rks))).filterMap
          (fun i => cs[i]?) := by
  induction cs with
  | nil => intro k; rfl
  | cons a t ih =>
    intro k
    have hcomp1 : ((fun i => (a :: t)[i]?) ∘ Nat.succ) = (fun i => t[i]?) := by
      funext i
      exact List.getElem?_cons_succ
    have htail : (List.enumFrom (k + 1) t).filterMap
          (fun p => if ((p.1 : ℤ) ∈ rks) then none else some p.2) =
        ((List.map Nat.succ (List.range t.length)).filter
            (fun i => decide ((((k + i : ℕ) : ℤ)) ∉ rks))).filterMap
          (fun i => (a :: t)[i]?) := by
      rw [List.filter_map, List.filterMap_map, hcomp1, ih (k + 1)]
      congr 1
      apply List.filter_congr
      intro x _
      show decide (((((k + 1) + x : ℕ)) : ℤ) ∉ rks) =
        decide ((((k + (x + 1) : ℕ)) : ℤ) ∉ rks)
      rw [show (k + 1) + x = k + (x + 1) from by omega]
    by_cases hk : ((k : ℤ) ∈ rks)
    · have hnone : (fun p : ℕ × Candidate =>
          if ((p.1 : ℤ) ∈ rks) then none else some p.2) (k, a) = none := by
        simp [hk]
      have hcond : ¬ (decide ((((k + 0 : ℕ) : ℤ)) ∉ rks) = true) := by
        simp only [Nat.add_zero, decide_eq_true_eq, Decidable.not_not]
        exact hk
      rw [List.enumFrom_cons,
        @List.filterMap_cons_none (ℕ × Candidate) Candidate
          (fun p => if ((p.1 : ℤ) ∈ rks) then none else some p.2)
          (k, a) (List.enumFrom (k + 1) t) hnone]
      rw [List.length_cons, List.range_succ_eq_map, List.filter_cons, if_neg hcond]
      exact htail
    · have hsome : (fun p : ℕ × Candidate =>
          if ((p.1 : ℤ) ∈ rks) then none else some p.2) (k, a) = some a := by
        simp [hk]
      have hcond : decide ((((k + 0 : ℕ) : ℤ)) ∉ rks) = true := by
        simp only [Nat.add_zero, decide_eq_true_eq]
        exact hk
      rw [List.enumFrom_cons,
        @List.filterMap_cons_some (ℕ × Candidate) Candidate
          (fun p => if ((p.1 : ℤ) ∈ rks) then none else some p.2)
          (k, a) (List.enumFrom (k + 1) t) a hsome]
      rw [List.length_cons, List.range_succ_eq_map, List.filter_cons, if_pos hcond]
      rw [@List.filterMap_cons_some ℕ Candidate (fun i => (a :: t)[i]?) 0
        ((List.map Nat.succ (List.range t.length)).filter
          (fun i => decide ((((k + i : ℕ) : ℤ)) ∉ rks))) a List.getElem?_cons_zero]
      exact congrArg (a :: ·) htail

/-- The remainder loop as a filter of the position range. -/
theorem rerankRemaining_eq (cs : List Candidate) (rks : List ℤ) :
    rerankRemaining cs rks =
      ((List.range cs.length).filter
          (fun i => decide (((i : ℕ) : ℤ) ∉ rks))).filterMap
        (fun i => cs[i]?) := by
  unfold rerankRemaining
  rw [List.enum_eq_enumFrom, enumFrom_drop_mem_eq cs rks 0]
  congr 1
  apply List.filter_congr
  intro x _
  rw [show 0 + x = x from by omega]

/-! ## C1 -/

/-- C1 (amended): for every non-empty candidate list and every string
response, if the parsed in-range indices are pairwise distinct (in
particular whenever the model returns a genuine ranking), the list
returned by `_rerank_with_llm` is a permutation of the candidates;
with a repeated in-range index the claim fails — see the
counterexample. -/
theorem rerank_with_llm_perm (cs : List Candidate) (resp : String)
    (hne : cs ≠ [])
    (hnodup : ((parseRankings resp).filter (rankInRange cs.length)).Nodup) :
    (rerank_with_llm cs (.ok resp)).Perm cs := by
  have hunfold : rerank_with_llm cs (.ok resp) =
      rerankPick cs (parseRankings resp) ++ rerankRemaining cs (parseRankings resp) := by
    cases cs with
    | nil => exact absurd rfl hne
    | cons a t => rfl
  set rks := parseRankings resp with hrks
  set n := cs.length with hn
  set idxs := (rks.filter (rankInRange n)).map Int.toNat with hidxs
  set rem := (List.range n).filter (fun i => decide (((i : ℕ) : ℤ) ∉ rks)) with hrem
  have hin : ∀ r ∈ rks.filter (rankInRange n), 0 ≤ r ∧ r < (n : ℤ) := by
    intro r hr
    have h2 := (List.mem_filter.mp hr).2
    rw [rankInRange, Bool.and_eq_true, decide_eq_true_eq, decide_eq_true_eq] at h2
    exact h2
  have hndIdxs : idxs.Nodup := by
    rw [hidxs]
    refine List.Nodup.map_on ?_ hnodup
    intro x hx y hy hxy
    have hx0 := (hin x hx).1
    have hy0 := (hin y hy).1
    omega
  have hndRem : rem.Nodup := List.Nodup.filter _ (List.nodup_range n)
  have hdisj : idxs.Disjoint rem := by
    intro i hi hrm
    rcases List.mem_map.mp hi with ⟨r, hr, rfl⟩
    have hr0 := (hin r hr).1
    have hmemr : (((r.toNat : ℕ) : ℤ)) ∈ rks := by
      rw [Int.toNat_of_nonneg hr0]
      exact (List.mem_filter.mp hr).1
    have hnotin := (List.mem_filter.mp hrm).2
    rw [decide_eq_true_eq] at hnotin
    exact hnotin hmemr
  have hperm : (idxs ++ rem).Perm (List.range n) := by
    refine (List.perm_ext_iff_of_nodup (List.nodup_append.mpr ⟨hndIdxs, hndRem, hdisj⟩)
      (List.nodup_range n)).mpr ?_
    intro i
    rw [List.mem_append, List.mem_range]
    constructor
    · rintro (hi | hi)
      · rcases List.mem_map.mp hi with ⟨r, hr, rfl⟩
        have := hin r hr
        omega
      · exact List.mem_range.mp (List.mem_filter.mp hi).1
    · intro hilt
      by_cases hasr : (((i : ℕ) : ℤ)) ∈ rks
      · left
        rw [hidxs]
        refine List.mem_map.mpr ⟨((i : ℕ) : ℤ), ?_, Int.toNat_natCast i⟩
        refine List.mem_filter.mpr ⟨hasr, ?_⟩
        rw [rankInRange, Bool.and_eq_true, decide_eq_true_eq, decide_eq_true_eq]
        constructor
        · exact Int.ofNat_nonneg i
        · exact_mod_cast hilt
      · right
        rw [hrem]
        exact List.mem_filter.mpr ⟨List.mem_range.mpr hilt, decide_eq_true hasr⟩
  rw [hunfold, rerankPick_eq, rerankRemaining_eq, ← List.filterMap_append]
  exact (hperm.filterMap (fun i => cs[i]?)).trans
    (by rw [range_filterMap_getElem cs])

/-- Witness for C1 (amended): a genuine two-element ranking. -/
theorem rerank_with_llm_perm_witness :
    (rerank_with_llm [Candidate.mk "v" "a" "x" 1, Candidate.mk "v" "b" "y" 2]
        (.ok "2,1")).Perm
      [Candidate.mk "v" "a" "x" 1, Candidate.mk "v" "b" "y" 2] :=
  rerank_with_llm_perm [Candidate.mk "v" "a" "x" 1, Candidate.mk "v" "b" "y" 2]
    "2,1" (by decide) (by decide)

/-- Counterexample for C1 as stated: on the parsed index sequence
`1,1` (a repeated in-range index) the first candidate is emitted
twice, so the rerank output is not a permutation of the candidate
list. -/
theorem rerank_with_llm_not_perm :
    ¬ (rerank_with_llm [Candidate.mk "v" "a" "x" 1, Candidate.mk "v" "b" "y" 2]
        (.ok "1,1")).Perm
      [Candidate.mk "v" "a" "x" 1, Candidate.mk "v" "b" "y" 2] := by
  decide

/-! ## C3 -/

/-- C3: on a parsed response, `_rerank_with_llm` first emits the
candidates selected by the in-range parsed indices (every parsed index
outside `1..len(candidates)` is dropped: filtering the ranking to the
in-range indices leaves the output unchanged), and then appends every
candidate whose position is not mentioned in the parsed ranking; the
appended part is a subsequence of the candidate list, i.e. it keeps
the original order. -/
theorem rerank_with_llm_drop_and_append (cs : List Candidate) (resp : String)
    (hne : cs ≠ []) :
    rerank_with_llm cs (.ok resp) =
        rerankPick cs ((parseRankings resp).filter (rankInRange cs.length)) ++
          rerankRemaining cs (parseRankings resp) ∧
    (rerankRemaining cs (parseRankings resp)).Sublist cs := by
  refine ⟨?_, rerankRemaining_sublist cs (parseRankings resp)⟩
  have hunfold : rerank_with_llm cs (.ok resp) =
      rerankPick cs (parseRankings resp) ++ rerankRemaining cs (parseRankings resp) := by
    cases cs with
    | nil => exact absurd rfl hne
    | cons a t => rfl
  rw [hunfold]
  congr 1
  rw [rerankPick_eq cs (parseRankings resp),
    rerankPick_eq cs ((parseRankings resp).filter (rankInRange cs.length)),
    List.filter_filter]
  have hff : (parseRankings resp).filter
      (fun a => rankInRange cs.length a && rankInRange cs.length a) =
      (parseRankings resp).filter (rankInRange cs.length) :=
    List.filter_congr (fun x _ => Bool.and_self _)
  rw [hff]

/-- Witness for C3: the response `5,2` contains the out-of-range index
5 and mentions only the second of two candidates. -/
theorem rerank_with_llm_drop_and_append_witness :
    rerank_with_llm [Candidate.mk "v" "a" "x" 1, Candidate.mk "v" "b" "y" 2]
        (.ok "5,2") =
        rerankPick [Candidate.mk "v" "a" "x" 1, Candidate.mk "v" "b" "y" 2]
          ((parseRankings "5,2").filter
            (rankInRange (List.length
              [Candidate.mk "v" "a" "x" 1, Candidate.mk "v" "b" "y" 2]))) ++
          rerankRemaining [Candidate.mk "v" "a" "x" 1, Candidate.mk "v" "b" "y" 2]
            (parseRankings "5,2") ∧
    (rerankRemaining [Candidate.mk "v" "a" "x" 1, Candidate.mk "v" "b" "y" 2]
        (parseRankings "5,2")).Sublist
      [Candidate.mk "v" "a" "x" 1, Candidate.mk "v" "b" "y" 2] :=
  rerank_with_llm_drop_and_append
    [Candidate.mk "v" "a" "x" 1, Candidate.mk "v" "b" "y" 2] "5,2" (by decide)
